import Mathlib

/-!
Shallow embedding of the engine-communication actor of the
`stockfish-chess` repository (src/src/engine/actor.rs and
src/src/engine/difficulty.rs), together with theorems settling the
frozen claims about it.

The engine's output stream is modelled as a `List String` of the lines
still to be read; reaching the end of the list corresponds to
`read_line` returning 0 bytes (stream closed).  Protocol lines written
to the engine and events published on the outbound queue are gathered
in order in an `Eff` record.  `anyhow::Result` is modelled as
`Except String`.
-/

namespace StockfishChess

/-!
String primitives are implemented over the underlying character list
(`String.data`) rather than through the position-based functions of the
standard library, so that every definition in this file evaluates
inside the kernel.  They model the Rust primitives the source uses:
`split_whitespace`, `trim`, `starts_with` and `str::parse`.  (Rust's
whitespace notion is Unicode; protocol lines are ASCII, where
`Char.isWhitespace` agrees.)
-/

/-- Value of a non-empty all-digit character list, `none` otherwise. -/
def digitsVal : List Char → Option Nat
  | [] => none
  | cs =>
      if cs.all (fun c => c.isDigit) then
        some (cs.foldl (fun a c => a * 10 + (c.toNat - 48)) 0)
      else none

/-- Accumulating worker for `splitWhitespace`; `acc` holds the current
token's characters in reverse. -/
def splitWhitespaceAux : List Char → List Char → List String
  | [], acc => if acc = [] then [] else [⟨acc.reverse⟩]
  | c :: cs, acc =>
      if c.isWhitespace then
        if acc = [] then splitWhitespaceAux cs []
        else ⟨acc.reverse⟩ :: splitWhitespaceAux cs []
      else splitWhitespaceAux cs (c :: acc)

/-- Rust `str::split_whitespace`: split on whitespace runs, dropping
empty fragments. -/
def splitWhitespace (s : String) : List String :=
  splitWhitespaceAux s.data []

/-- Rust `str::starts_with`. -/
def strStartsWith (s p : String) : Bool :=
  p.data.isPrefixOf s.data

/-- Rust `str::trim`: strip leading and trailing whitespace. -/
def strTrim (s : String) : String :=
  ⟨(((s.data.dropWhile fun c => c.isWhitespace).reverse.dropWhile
      fun c => c.isWhitespace).reverse)⟩

/-- Rust `str::parse::<uNN>().ok()`: an optional leading `+` sign, then
decimal digits, rejecting values outside the width.  `bound` is the
exclusive upper bound (2^32 for u32, 2^64 for u64). -/
def parseUNat (bound : Nat) (s : String) : Option Nat :=
  let cs :=
    match s.data with
    | '+' :: cs => cs
    | cs => cs
  match digitsVal cs with
  | some n => if n < bound then some n else none
  | none => none

/-- Rust `str::parse::<i32>().ok()`: an optional single leading `+` or
`-` sign, then decimal digits, rejecting values outside i32 range. -/
def parseI32 (s : String) : Option Int :=
  let v : Option Int :=
    match s.data with
    | '+' :: cs => (digitsVal cs).map (fun n => (n : Int))
    | '-' :: cs => (digitsVal cs).map (fun n => -(n : Int))
    | cs => (digitsVal cs).map (fun n => (n : Int))
  match v with
  | some n => if -(2 ^ 31) ≤ n ∧ n < 2 ^ 31 then some n else none
  | none => none

/-- `DifficultyLevel` from src/src/engine/difficulty.rs. -/
inductive DifficultyLevel where
  | Novice
  | Beginner
  | Casual
  | Intermediate
  | Advanced
  | Expert
  | Maximum
  deriving DecidableEq, Repr

/-- `DifficultyLevel::uci_commands` from src/src/engine/difficulty.rs. -/
def DifficultyLevel.uci_commands : DifficultyLevel → List String
  | .Novice =>
      ["setoption name UCI_LimitStrength value false",
       "setoption name Skill Level value 0"]
  | .Beginner =>
      ["setoption name UCI_LimitStrength value true",
       "setoption name UCI_Elo value 1350"]
  | .Casual =>
      ["setoption name UCI_LimitStrength value true",
       "setoption name UCI_Elo value 1500"]
  | .Intermediate =>
      ["setoption name UCI_LimitStrength value true",
       "setoption name UCI_Elo value 1800"]
  | .Advanced =>
      ["setoption name UCI_LimitStrength value true",
       "setoption name UCI_Elo value 2100"]
  | .Expert =>
      ["setoption name UCI_LimitStrength value true",
       "setoption name UCI_Elo value 2500"]
  | .Maximum =>
      ["setoption name UCI_LimitStrength value false"]

/-- `impl Default for DifficultyLevel`. -/
def DifficultyLevel.defaultLevel : DifficultyLevel := .Casual

/-- `EngineCommand` from src/src/engine/actor.rs. -/
inductive EngineCommand where
  | Init
  | SetDifficulty (level : DifficultyLevel)
  | SetMultiPV (lines : Nat)
  | NewGame
  | Go (fen : String) (moves : List String) (movetime_ms : Option Nat)
  | Analyze (fen : String) (moves : List String)
  | Stop
  | Quit
  deriving DecidableEq, Repr

/-- `EngineEvent` from src/src/engine/actor.rs. -/
inductive EngineEvent where
  | Ready
  | BestMove (best_move : String) (ponder : Option String)
  | Info (depth : Option Nat) (score_cp : Option Int) (score_mate : Option Int)
      (pv : List String) (nodes : Option Nat) (time_ms : Option Nat)
      (multipv : Option Nat)
  | Error (msg : String)
  | Terminated
  deriving DecidableEq, Repr

/-- `EngineState` from src/src/engine/actor.rs. -/
inductive EngineState where
  | Uninitialized
  | Initializing
  | Idle
  | Thinking
  | Analyzing
  | Terminated
  deriving DecidableEq, Repr

/-- The mutable fields of `EngineActor` that the pure embedding tracks:
the state, whether the stdin and stdout handles are present (they are
installed together by `init`), whether the child handle is present, and
the stored difficulty. -/
structure Actor where
  state : EngineState
  stdin : Bool
  stdout : Bool
  child : Bool
  difficulty : DifficultyLevel
  deriving DecidableEq, Repr

deriving instance DecidableEq for Except

/-- Outcome of one actor operation: the `anyhow::Result`, the updated
actor, the engine-output lines still unread, the protocol lines written
(in order), and the events published on the outbound queue (in order). -/
structure Eff where
  res : Except String Unit
  actor : Actor
  input : List String
  sent : List String
  events : List EngineEvent
  deriving DecidableEq, Repr

/-- A successful no-effect outcome. -/
def Eff.pure (a : Actor) (input : List String) : Eff :=
  ⟨.ok (), a, input, [], []⟩

/-- Sequencing with `?`-propagation: on error the second operation does
not run; on success its writes and events are appended. -/
def Eff.bind (e : Eff) (f : Actor → List String → Eff) : Eff :=
  match e.res with
  | .error _ => e
  | .ok _ =>
      let e2 := f e.actor e.input
      ⟨e2.res, e2.actor, e2.input, e.sent ++ e2.sent, e.events ++ e2.events⟩

/-- The accumulated per-keyword parse state of `parse_info_line`. -/
structure InfoFields where
  depth : Option Nat
  score_cp : Option Int
  score_mate : Option Int
  pv : List String
  nodes : Option Nat
  time_ms : Option Nat
  multipv : Option Nat
  deriving DecidableEq, Repr

/-- The empty parse state (all fields `None`, `pv` empty). -/
def InfoFields.empty : InfoFields := ⟨none, none, none, [], none, none, none⟩

/-- The keyword list that terminates `pv` token consumption
(src/src/engine/actor.rs line 508). -/
def stopKeywords : List String :=
  ["depth", "score", "nodes", "time", "nps", "multipv", "seldepth",
   "hashfull", "tbhits", "string", "currmove", "currmovenumber"]

/-- The keyword-driven token scan of `EngineActor::parse_info_line`
(the `while i < parts.len()` loop).  The Rust inner `while` that greedily
consumes `pv` tokens up to the next keyword in `stopKeywords` is folded
into the outer loop by the `inPv` flag: while the flag is set, any token
not in `stopKeywords` is appended to `pv`; a token in `stopKeywords`
clears the flag and is processed by the keyword match, exactly as the
outer Rust loop resumes at the keyword that ended the inner `while`.
The `fuel` counter is decremented once per loop iteration while at
least one token is consumed, so `parts.length` fuel always suffices;
it only makes the recursion structural. -/
def scanInfoGo (fuel : Nat) (parts : List String) (inPv : Bool)
    (acc : InfoFields) : InfoFields :=
  match fuel with
  | 0 => acc
  | fuel + 1 =>
    match parts with
    | [] => acc
    | tok :: rest =>
      if inPv && !stopKeywords.contains tok then
        scanInfoGo fuel rest true { acc with pv := acc.pv ++ [tok] }
      else
        match tok with
        | "depth" =>
            match rest with
            | v :: rest2 => scanInfoGo fuel rest2 false { acc with depth := parseUNat (2 ^ 32) v }
            | [] => acc
        | "multipv" =>
            match rest with
            | v :: rest2 => scanInfoGo fuel rest2 false { acc with multipv := parseUNat (2 ^ 32) v }
            | [] => acc
        | "score" =>
            match rest with
            | kind :: v :: rest2 =>
                match kind with
                | "cp" => scanInfoGo fuel rest2 false { acc with score_cp := parseI32 v }
                | "mate" => scanInfoGo fuel rest2 false { acc with score_mate := parseI32 v }
                | _ => scanInfoGo fuel rest2 false acc
            | _ => scanInfoGo fuel rest false acc
        | "nodes" =>
            match rest with
            | v :: rest2 => scanInfoGo fuel rest2 false { acc with nodes := parseUNat (2 ^ 64) v }
            | [] => acc
        | "time" =>
            match rest with
            | v :: rest2 => scanInfoGo fuel rest2 false { acc with time_ms := parseUNat (2 ^ 64) v }
            | [] => acc
        | "pv" => scanInfoGo fuel rest true acc
        | _ => scanInfoGo fuel rest false acc

/-- The token scan started on a token list, with enough fuel for the
whole list. -/
def scanInfo (parts : List String) (inPv : Bool) (acc : InfoFields) : InfoFields :=
  scanInfoGo parts.length parts inPv acc

/-- `EngineActor::parse_info_line`: scan the tokens after index 0 and
emit an `Info` event only when depth, a score, or a non-empty principal
variation was collected. -/
def parse_info_line (line : String) : Option EngineEvent :=
  let parts := splitWhitespace line
  let f := scanInfo parts.tail false InfoFields.empty
  if f.depth.isSome || f.score_cp.isSome || f.score_mate.isSome || !f.pv.isEmpty then
    some (.Info f.depth f.score_cp f.score_mate f.pv f.nodes f.time_ms f.multipv)
  else
    none

/-- The emission gate of `parse_info_line`: the scan collected a depth,
a score (centipawns or mate), or a non-empty principal variation. -/
def infoPayloadPresent (line : String) : Bool :=
  let f := scanInfo (splitWhitespace line).tail false InfoFields.empty
  f.depth.isSome || f.score_cp.isSome || f.score_mate.isSome || !f.pv.isEmpty

/-- Whether an event is a `BestMove`. -/
def isBestMoveEvent : EngineEvent → Bool
  | .BestMove _ _ => true
  | _ => false

/-- The `bestmove` branch of `EngineActor::read_until_bestmove`
(src/src/engine/actor.rs lines 388-396): token 2 is the move, tokens
3-4 an optional `ponder <move>` pair. -/
def parse_bestmove (trimmed : String) : EngineEvent :=
  let parts := splitWhitespace trimmed
  let best_move := (parts.get? 1).getD ""
  let ponder :=
    if 4 ≤ parts.length ∧ parts.get? 2 = some "ponder" then parts.get? 3
    else none
  .BestMove best_move ponder

/-- `EngineActor::send_command`: write one protocol line, failing when
the stdin handle is absent. -/
def send_command (cmd : String) (a : Actor) (input : List String) : Eff :=
  if a.stdin then ⟨.ok (), a, input, [cmd], []⟩
  else ⟨.error "No stdin available", a, input, [], []⟩

/-- The read loop of `EngineActor::wait_for_response`: consume lines
until one whose trim starts with `expected`; reaching the end of the
stream is the `read_line` returning 0 error case. -/
def waitLines (expected : String) : List String → Option (List String)
  | [] => none
  | line :: rest =>
      if strStartsWith (strTrim line) expected then some rest
      else waitLines expected rest

/-- `EngineActor::wait_for_response`. -/
def wait_for_response (expected : String) (a : Actor) (input : List String) : Eff :=
  if a.stdout then
    match waitLines expected input with
    | some rest => ⟨.ok (), a, rest, [], []⟩
    | none => ⟨.error ("Engine closed stdout unexpectedly (waiting for " ++ expected ++ ")"),
               a, [], [], []⟩
  else ⟨.error "No stdout available", a, input, [], []⟩

/-- The read loop of `EngineActor::read_until_bestmove`: per line, an
`info ` line is parsed and its event (when any) emitted; a `bestmove `
line emits its `BestMove` event and ends the loop; other lines are
skipped; end of stream is the `read_line` returning 0 error case.
Returns the emitted events, the result, and the unread lines. -/
def readUntilBestmoveLines :
    List String → List EngineEvent × Except String Unit × List String
  | [] => ([], .error "Engine closed stdout unexpectedly", [])
  | line :: rest =>
      let trimmed := strTrim line
      if strStartsWith trimmed "info " then
        match parse_info_line trimmed with
        | some ev =>
            let r := readUntilBestmoveLines rest
            (ev :: r.1, r.2.1, r.2.2)
        | none => readUntilBestmoveLines rest
      else if strStartsWith trimmed "bestmove " then
        ([parse_bestmove trimmed], .ok (), rest)
      else readUntilBestmoveLines rest

/-- `EngineActor::read_until_bestmove`. -/
def read_until_bestmove (a : Actor) (input : List String) : Eff :=
  if a.stdout then
    let r := readUntilBestmoveLines input
    ⟨r.2.1, a, r.2.2, [], r.1⟩
  else ⟨.error "No stdout available", a, input, [], []⟩

/-- `EngineActor::read_analysis_output`: read a single line; end of
stream is the `n = 0` no-data case; an `info ` line may emit one `Info`
event; a `bestmove ` line only moves the state back to `Idle`. -/
def read_analysis_output (a : Actor) (input : List String) : Eff :=
  if a.stdout then
    match input with
    | [] => ⟨.ok (), a, [], [], []⟩
    | line :: rest =>
        let trimmed := strTrim line
        if strStartsWith trimmed "info " then
          match parse_info_line trimmed with
          | some ev => ⟨.ok (), a, rest, [], [ev]⟩
          | none => ⟨.ok (), a, rest, [], []⟩
        else if strStartsWith trimmed "bestmove " then
          ⟨.ok (), { a with state := .Idle }, rest, [], []⟩
        else ⟨.ok (), a, rest, [], []⟩
  else ⟨.error "No stdout available", a, input, [], []⟩

/-- The bounded read loop of `EngineActor::drain_output`: up to `n`
(source: 100) reads, stopping early at end of stream or at a line whose
trim starts with `bestmove `; lines are discarded.  Returns the unread
lines. -/
def drainGo : Nat → List String → List String
  | 0, input => input
  | _ + 1, [] => []
  | n + 1, line :: rest =>
      if strStartsWith (strTrim line) "bestmove " then rest
      else drainGo n rest

/-- `EngineActor::drain_output`: at most 100 reads, no events, no
writes. -/
def drain_output (a : Actor) (input : List String) : Eff :=
  if a.stdout then ⟨.ok (), a, drainGo 100 input, [], []⟩
  else ⟨.error "No stdout available", a, input, [], []⟩

/-- `EngineActor::apply_difficulty`: a silent no-op without a stdin
handle; otherwise send every difficulty line, then an
`isready`/`readyok` round trip. -/
def apply_difficulty (a : Actor) (input : List String) : Eff :=
  if a.stdin then
    ((a.difficulty.uci_commands.foldl (fun e c => e.bind (send_command c))
        (Eff.pure a input)).bind
      (send_command "isready")).bind (wait_for_response "readyok")
  else Eff.pure a input

/-- `EngineActor::set_multipv`: a silent no-op without a stdin handle;
otherwise clamp the line count to [1,5], send the `setoption` line,
then an `isready`/`readyok` round trip. -/
def set_multipv (lines : Nat) (a : Actor) (input : List String) : Eff :=
  if a.stdin then
    let lines := if lines < 1 then 1 else if lines > 5 then 5 else lines
    (((Eff.pure a input).bind
        (send_command ("setoption name MultiPV value " ++ toString lines))).bind
      (send_command "isready")).bind (wait_for_response "readyok")
  else Eff.pure a input

/-- `EngineActor::new_game`. -/
def new_game (a : Actor) (input : List String) : Eff :=
  (((Eff.pure a input).bind (send_command "ucinewgame")).bind
    (send_command "isready")).bind (wait_for_response "readyok")

/-- `EngineActor::go`: send the position, move to `Thinking`, send the
bounded `go` line (defaulting to 1000 ms), block until `bestmove`, then
return to `Idle`.  The moves argument is ignored by the source
(`_moves`). -/
def go (fen : String) (movetime_ms : Option Nat) (a : Actor)
    (input : List String) : Eff :=
  ((Eff.pure a input).bind
      (send_command ("position fen " ++ fen))).bind (fun a1 in1 =>
    let go_cmd :=
      match movetime_ms with
      | some ms => "go movetime " ++ toString ms
      | none => "go movetime 1000"
    (((Eff.pure { a1 with state := .Thinking } in1).bind
        (send_command go_cmd)).bind read_until_bestmove).bind (fun a2 in2 =>
      Eff.pure { a2 with state := .Idle } in2))

/-- `EngineActor::analyze`: when already `Analyzing`, first send `stop`
and drain; then send the position, move to `Analyzing` and send
`go infinite`. -/
def analyze (fen : String) (a : Actor) (input : List String) : Eff :=
  ((if a.state = .Analyzing then
      ((Eff.pure a input).bind (send_command "stop")).bind drain_output
    else Eff.pure a input).bind (fun a1 in1 =>
    ((Eff.pure a1 in1).bind
        (send_command ("position fen " ++ fen))).bind (fun a2 in2 =>
      (Eff.pure { a2 with state := .Analyzing } in2).bind
        (send_command "go infinite"))))

/-- `EngineActor::stop`: in `Thinking` send `stop` and block until
`bestmove`; in `Analyzing` send `stop` and drain; otherwise do
nothing.  Either search path ends in `Idle`. -/
def stop (a : Actor) (input : List String) : Eff :=
  match a.state with
  | .Thinking =>
      (((Eff.pure a input).bind (send_command "stop")).bind
        read_until_bestmove).bind (fun a1 in1 =>
          Eff.pure { a1 with state := .Idle } in1)
  | .Analyzing =>
      (((Eff.pure a input).bind (send_command "stop")).bind
        drain_output).bind (fun a1 in1 =>
          Eff.pure { a1 with state := .Idle } in1)
  | _ => Eff.pure a input

/-- `EngineActor::quit`: send `quit` ignoring any error, wait for and
release the child handle.  Always returns `Ok`; the state field is not
touched. -/
def quit (a : Actor) (input : List String) : Eff :=
  let e := send_command "quit" a input
  ⟨.ok (), { e.actor with child := false }, e.input, e.sent, e.events⟩

/-- Error-to-event wrapping shared by the non-`Quit` arms of
`EngineActor::handle_command`: an operation error becomes an `Error`
event and the arm itself returns `Ok`. -/
def wrapErr (e : Eff) : Eff :=
  match e.res with
  | .ok _ => e
  | .error msg => ⟨.ok (), e.actor, e.input, e.sent, e.events ++ [.Error msg]⟩

/-- `EngineActor::handle_command`.  `SetDifficulty` stores the level
before applying it; `Quit` runs `quit` and returns the sentinel error
`Quit command received`.  `Init` spawns the external engine process and
runs the handshake against it; OS process creation is outside this pure
embedding and no claim concerns `Init`, so its arm is a no-op here. -/
def handleCommand (cmd : EngineCommand) (a : Actor) (input : List String) : Eff :=
  match cmd with
  | .Init => Eff.pure a input
  | .SetDifficulty level => wrapErr (apply_difficulty { a with difficulty := level } input)
  | .SetMultiPV lines => wrapErr (set_multipv lines a input)
  | .NewGame => wrapErr (new_game a input)
  | .Go fen _moves movetime_ms => wrapErr (go fen movetime_ms a input)
  | .Analyze fen _moves => wrapErr (analyze fen a input)
  | .Stop => wrapErr (stop a input)
  | .Quit =>
      let e := quit a input
      ⟨.error "Quit command received", e.actor, e.input, e.sent, e.events⟩

/-- The loop of `EngineActor::run`, for an execution in which the
command list is already enqueued: each iteration receives the next
command and handles it, merely logging (discarding) any error result —
including the `Quit` sentinel; an exhausted list is the disconnected
channel, which breaks the loop, sets `Terminated` and emits the
`Terminated` event.  (The `Analyzing` non-blocking poll only takes its
`read_analysis_output` branch when the queue is momentarily empty,
which cannot happen with a pre-enqueued command list.)  Returns the
final actor, all protocol lines written and all events emitted. -/
def runLoop : List EngineCommand → Actor → List String →
    Actor × List String × List EngineEvent
  | [], a, _ => ({ a with state := .Terminated }, [], [.Terminated])
  | cmd :: rest, a, input =>
      let e := handleCommand cmd a input
      let r := runLoop rest e.actor e.input
      (r.1, e.sent ++ r.2.1, e.events ++ r.2.2)

/-- An initialized actor at rest: all handles live, default difficulty. -/
def idleActor : Actor := ⟨.Idle, true, true, true, .Casual⟩

/-- An initialized actor with an unbounded search in flight. -/
def analyzingActor : Actor := ⟨.Analyzing, true, true, true, .Casual⟩

/-- An actor before any `Init`: no process, no pipe handles. -/
def uninitActor : Actor := ⟨.Uninitialized, false, false, false, .Casual⟩

/-- C1: processing `Quit` from `Idle` sends `quit` and releases the
child, but the run loop does not exit: the actor's state is still
`Idle` right after the `Quit` command is handled, a later `NewGame` is
still processed (its `ucinewgame`/`isready` lines are written after
`quit`), and `Terminated` is only emitted when the command channel
closes.  This evaluates the model at the failing input of the claim. -/
theorem claim_C1_run_continues_after_quit :
    runLoop [.Quit, .NewGame] idleActor ["readyok"]
      = (⟨.Terminated, true, true, false, .Casual⟩,
         ["quit", "ucinewgame", "isready"], [.Terminated])
    ∧ (handleCommand .Quit idleActor ["readyok"]).actor.state = .Idle := by
  exact ⟨rfl, rfl⟩

/-- C7: reading the engine line `bestmove e2e4 ponder e7e5` yields the
event `BestMove e2e4 (ponder e7e5)`, and reading `bestmove (none)`
yields `BestMove (none)` without a ponder move. -/
theorem claim_C7_bestmove_examples :
    (read_until_bestmove idleActor ["bestmove e2e4 ponder e7e5"]).events
      = [.BestMove "e2e4" (some "e7e5")]
    ∧ (read_until_bestmove idleActor ["bestmove (none)"]).events
      = [.BestMove "(none)" none]
    ∧ parse_bestmove "bestmove e2e4 ponder e7e5" = .BestMove "e2e4" (some "e7e5")
    ∧ parse_bestmove "bestmove (none)" = .BestMove "(none)" none := by
  exact ⟨rfl, rfl, rfl, rfl⟩

/-- C2 counterexample: a `Go` handled while the actor is `Analyzing`
(an unbounded search in flight) writes only the new `position` and `go`
lines; no `stop` is sent first, falsifying the claim at this input. -/
theorem claim_C2_counterexample :
    (handleCommand (.Go "8/8/8/8/8/8/8/K6k w - - 0 1" [] none) analyzingActor
        ["bestmove e2e4"]).sent
      = ["position fen 8/8/8/8/8/8/8/K6k w - - 0 1", "go movetime 1000"]
    ∧ "stop" ∉ (handleCommand (.Go "8/8/8/8/8/8/8/K6k w - - 0 1" [] none) analyzingActor
        ["bestmove e2e4"]).sent := by
  exact ⟨rfl, by decide⟩

/-- C3 counterexample: in `Analyzing` mode a `bestmove` line read by
`read_analysis_output` ends the search (state returns to `Idle`) but
emits no event at all — in particular not the one `BestMove` event the
claim requires. -/
theorem claim_C3_counterexample :
    (read_analysis_output analyzingActor ["bestmove e2e4"]).events = []
    ∧ (read_analysis_output analyzingActor ["bestmove e2e4"]).actor.state = .Idle := by
  exact ⟨rfl, rfl⟩

/-- C4 counterexample: the drain step run by `Stop` while `Analyzing`
reads the two pending `info` lines but forwards neither as an `Info`
event — the outbound queue stays empty, falsifying the claim at this
input. -/
theorem claim_C4_counterexample :
    (stop analyzingActor ["info depth 1 score cp 3", "info depth 2 score cp 4"]).events = []
    ∧ (stop analyzingActor
        ["info depth 1 score cp 3", "info depth 2 score cp 4"]).actor.state = .Idle := by
  exact ⟨rfl, rfl⟩

/-- C10: without a live process (stdin handle absent), `SetDifficulty`
and `SetMultiPV` complete as silent no-ops: nothing is written, no
event (not even `Error`) is emitted, the input stream is untouched, and
the actor is unchanged except that `SetDifficulty` records the new
level. -/
theorem claim_C10_no_process_noop :
    ∀ (a : Actor) (level : DifficultyLevel) (n : Nat) (input : List String),
      a.stdin = false →
      handleCommand (.SetDifficulty level) a input
        = ⟨.ok (), { a with difficulty := level }, input, [], []⟩
      ∧ handleCommand (.SetMultiPV n) a input = ⟨.ok (), a, input, [], []⟩ := by
  intro a level n input h
  constructor
  · simp [handleCommand, apply_difficulty, wrapErr, Eff.pure, h]
  · simp [handleCommand, set_multipv, wrapErr, Eff.pure, h]

/-- C10 witness: the no-op at a concrete uninitialized actor. -/
theorem claim_C10_witness :
    handleCommand (.SetDifficulty .Novice) uninitActor []
      = ⟨.ok (), { uninitActor with difficulty := .Novice }, [], [], []⟩
    ∧ handleCommand (.SetMultiPV 3) uninitActor [] = ⟨.ok (), uninitActor, [], [], []⟩ :=
  claim_C10_no_process_noop uninitActor .Novice 3 [] rfl

lemma drainGo_length_le : ∀ (n : Nat) (input : List String),
    input.length ≤ n + (drainGo n input).length := by
  intro n
  induction n with
  | zero => intro input; simp [drainGo]
  | succ m ih =>
      intro input
      match input with
      | [] => simp [drainGo]
      | line :: rest =>
          simp only [drainGo, List.length_cons]
          split
          · omega
          · have := ih rest
            omega

/-- C2 amended: handled while `Analyzing`, a new `Analyze` first sends
`stop` (and drains the engine output) before the new `position` and
`go infinite` lines, whereas a `Go` sends only its new `position` and
bounded `go` line without stopping the in-flight search. -/
theorem claim_C2_amended :
    (∀ (fen : String) (moves : List String) (a : Actor) (input : List String),
      a.stdin = true → a.stdout = true → a.state = .Analyzing →
      (handleCommand (.Analyze fen moves) a input).sent
        = ["stop", "position fen " ++ fen, "go infinite"])
    ∧ (∀ (fen : String) (moves : List String) (t : Option Nat) (a : Actor)
        (input : List String),
      a.stdin = true → a.state = .Analyzing →
      (handleCommand (.Go fen moves t) a input).sent
        = ["position fen " ++ fen,
           match t with
           | some ms => "go movetime " ++ toString ms
           | none => "go movetime 1000"]) := by
  constructor
  · intro fen moves a input h1 h2 h3
    obtain ⟨st, si, so, ch, df⟩ := a
    simp only at h1 h2 h3
    subst h1 h2 h3
    simp [handleCommand, analyze, wrapErr, Eff.pure, Eff.bind, send_command,
      drain_output]
  · intro fen moves t a input h1 h3
    obtain ⟨st, si, so, ch, df⟩ := a
    simp only at h1 h3
    subst h1 h3
    rcases hr : readUntilBestmoveLines input with ⟨evs, r, rem⟩
    cases t <;> cases so <;>
      [skip; (rcases r with msg | u); skip; (rcases r with msg | u)] <;>
      simp [handleCommand, go, wrapErr, Eff.pure, Eff.bind, send_command,
        read_until_bestmove, hr]

/-- C2 witness: the amended behaviour at concrete inputs. -/
theorem claim_C2_witness :
    (handleCommand (.Analyze "4k3/8/8/8/8/8/8/4K3 w - - 0 1" []) analyzingActor
        ["bestmove a1a2"]).sent
      = ["stop", "position fen 4k3/8/8/8/8/8/8/4K3 w - - 0 1", "go infinite"]
    ∧ (handleCommand (.Go "4k3/8/8/8/8/8/8/4K3 w - - 0 1" [] (some 250)) analyzingActor
        ["bestmove a1a2"]).sent
      = ["position fen 4k3/8/8/8/8/8/8/4K3 w - - 0 1", "go movetime 250"] := by
  constructor
  · exact claim_C2_amended.1 "4k3/8/8/8/8/8/8/4K3 w - - 0 1" [] analyzingActor
      ["bestmove a1a2"] rfl rfl rfl
  · exact claim_C2_amended.2 "4k3/8/8/8/8/8/8/4K3 w - - 0 1" [] (some 250) analyzingActor
      ["bestmove a1a2"] rfl rfl

/-- C4 amended: the drain step reads and discards engine output lines,
emitting no events: after `Stop` while `Analyzing` the actor sends only
`stop`, publishes nothing, and returns to `Idle`; the drain consumes at
most 100 lines, and stops as soon as a line whose trim starts with
`bestmove ` is read. -/
theorem claim_C4_amended :
    (∀ (a : Actor) (input : List String),
      a.stdin = true → a.stdout = true → a.state = .Analyzing →
      (stop a input).events = [] ∧ (stop a input).sent = ["stop"]
      ∧ (stop a input).actor.state = .Idle ∧ (stop a input).res = .ok ()
      ∧ (stop a input).input = drainGo 100 input)
    ∧ (∀ input : List String, input.length - (drainGo 100 input).length ≤ 100)
    ∧ (∀ (n : Nat) (line : String) (rest : List String),
      strStartsWith (strTrim line) "bestmove " = true →
      drainGo (n + 1) (line :: rest) = rest) := by
  refine ⟨?_, ?_, ?_⟩
  · intro a input h1 h2 h3
    obtain ⟨st, si, so, ch, df⟩ := a
    simp only at h1 h2 h3
    subst h1 h2 h3
    simp [stop, Eff.pure, Eff.bind, send_command, drain_output]
  · intro input
    have := drainGo_length_le 100 input
    omega
  · intro n line rest h
    simp [drainGo, h]

/-- C4 witness: a concrete `Stop` while `Analyzing`, with the engine
silent after three `info` lines, drains without emitting and lands in
`Idle`; a concrete `bestmove` line ends a drain at once. -/
theorem claim_C4_witness :
    ((stop analyzingActor
        ["info depth 1 score cp 3", "info depth 2 score cp 4",
         "info depth 3 score cp 5"]).events = []
      ∧ (stop analyzingActor
          ["info depth 1 score cp 3", "info depth 2 score cp 4",
           "info depth 3 score cp 5"]).actor.state = .Idle)
    ∧ drainGo 100 ["bestmove e2e4", "leftover"] = ["leftover"] := by
  refine ⟨⟨?_, ?_⟩, ?_⟩
  · exact (claim_C4_amended.1 analyzingActor
      ["info depth 1 score cp 3", "info depth 2 score cp 4",
       "info depth 3 score cp 5"] rfl rfl rfl).1
  · exact (claim_C4_amended.1 analyzingActor
      ["info depth 1 score cp 3", "info depth 2 score cp 4",
       "info depth 3 score cp 5"] rfl rfl rfl).2.2.1
  · exact claim_C4_amended.2.2 99 "bestmove e2e4" ["leftover"] (by decide)

lemma head_of_startsWith (s : String) (c : Char) (ct : List Char) (p : String)
    (hp : p.data = c :: ct) (h : strStartsWith s p = true) : ∃ cs, s.data = c :: cs := by
  unfold strStartsWith at h
  rw [hp] at h
  cases hd : s.data with
  | nil => rw [hd] at h; simp [List.isPrefixOf] at h
  | cons b bs =>
      rw [hd] at h
      simp only [List.isPrefixOf, Bool.and_eq_true, beq_iff_eq] at h
      exact ⟨bs, by rw [h.1]⟩

lemma not_info_of_bestmove (s : String) (h : strStartsWith s "bestmove " = true) :
    strStartsWith s "info " = false := by
  obtain ⟨cs, hd⟩ :=
    head_of_startsWith s 'b' ['e', 's', 't', 'm', 'o', 'v', 'e', ' '] "bestmove " (by rfl) h
  unfold strStartsWith
  rw [hd]
  show List.isPrefixOf ("info ").data ('b' :: cs) = false
  have h2 : ("info ").data = 'i' :: ['n', 'f', 'o', ' '] := by rfl
  rw [h2]
  simp [List.isPrefixOf, (show ('i' == 'b') = false by rfl)]

lemma parse_info_line_not_best (t : String) (ev : EngineEvent)
    (h : parse_info_line t = some ev) : isBestMoveEvent ev = false := by
  simp only [parse_info_line] at h
  split at h
  · injection h with h2
    subst h2
    rfl
  · exact Option.noConfusion h

lemma parse_bestmove_isBest (t : String) : isBestMoveEvent (parse_bestmove t) = true := by
  rfl

lemma readUntilBestmove_structure (input : List String) :
    ((readUntilBestmoveLines input).1.filter isBestMoveEvent).length
      = (if (readUntilBestmoveLines input).2.1 = .ok () then 1 else 0)
    ∧ ((readUntilBestmoveLines input).2.1 = .ok () →
        ∃ pre bm, (readUntilBestmoveLines input).1 = pre ++ [bm]
          ∧ isBestMoveEvent bm = true) := by
  induction input with
  | nil =>
      simp [readUntilBestmoveLines]
  | cons line rest ih =>
      cases h1 : strStartsWith (strTrim line) "info " with
      | true =>
          rcases hp : parse_info_line (strTrim line) with _ | ev
          · simpa [readUntilBestmoveLines, h1, hp] using ih
          · have hbm := parse_info_line_not_best _ _ hp
            simp only [readUntilBestmoveLines, h1, hp]
            constructor
            · simpa [List.filter_cons, hbm] using ih.1
            · intro hok
              obtain ⟨pre, bm, he, hb⟩ := ih.2 hok
              exact ⟨ev :: pre, bm, by simp [he], hb⟩
      | false =>
          cases h2 : strStartsWith (strTrim line) "bestmove " with
          | true =>
              simp only [readUntilBestmoveLines, h1, h2]
              constructor
              · simp [List.filter_cons, parse_bestmove_isBest]
              · intro _
                exact ⟨[], parse_bestmove (strTrim line), by simp,
                  parse_bestmove_isBest _⟩
          | false =>
              simpa [readUntilBestmoveLines, h1, h2] using ih

/-- C3 amended: during a bounded `Go` search (`read_until_bestmove`),
the emitted events contain exactly one `BestMove`, as the last event,
precisely when a `bestmove` line was reached (and none when the stream
closed first); in `Analyzing` mode, a line whose trim starts with
`bestmove ` returns the actor to `Idle` but emits no event at all. -/
theorem claim_C3_amended :
    (∀ input : List String,
      ((readUntilBestmoveLines input).1.filter isBestMoveEvent).length
        = (if (readUntilBestmoveLines input).2.1 = .ok () then 1 else 0)
      ∧ ((readUntilBestmoveLines input).2.1 = .ok () →
          ∃ pre bm, (readUntilBestmoveLines input).1 = pre ++ [bm]
            ∧ isBestMoveEvent bm = true))
    ∧ (∀ (a : Actor) (line : String) (rest : List String),
        a.stdout = true → strStartsWith (strTrim line) "bestmove " = true →
        (read_analysis_output a (line :: rest)).actor.state = .Idle
        ∧ (read_analysis_output a (line :: rest)).events = []) := by
  constructor
  · exact readUntilBestmove_structure
  · intro a line rest h1 h2
    have h3 := not_info_of_bestmove _ h2
    obtain ⟨st, si, so, ch, df⟩ := a
    simp only at h1
    subst h1
    constructor <;> simp [read_analysis_output, h2, h3]

/-- C3 witness: the amended behaviour at concrete inputs — a bounded
read ending at `bestmove e2e4` emits exactly one `BestMove`, and a
`bestmove` line during analysis lands in `Idle` with no events. -/
theorem claim_C3_witness :
    ((readUntilBestmoveLines
        ["info depth 1 score cp 3", "bestmove e2e4"]).1.filter isBestMoveEvent).length = 1
    ∧ (read_analysis_output analyzingActor ["bestmove e2e4", "x"]).actor.state = .Idle
    ∧ (read_analysis_output analyzingActor ["bestmove e2e4", "x"]).events = [] := by
  refine ⟨?_, ?_, ?_⟩
  · have := (claim_C3_amended.1 ["info depth 1 score cp 3", "bestmove e2e4"]).1
    simpa using this
  · exact (claim_C3_amended.2 analyzingActor "bestmove e2e4" ["x"] rfl (by decide)).1
  · exact (claim_C3_amended.2 analyzingActor "bestmove e2e4" ["x"] rfl (by decide)).2

lemma scanInfoGo_no_keywords : ∀ (fuel : Nat) (parts : List String) (acc : InfoFields),
    "depth" ∉ parts → "score" ∉ parts → "pv" ∉ parts →
    (scanInfoGo fuel parts false acc).depth = acc.depth
    ∧ (scanInfoGo fuel parts false acc).score_cp = acc.score_cp
    ∧ (scanInfoGo fuel parts false acc).score_mate = acc.score_mate
    ∧ (scanInfoGo fuel parts false acc).pv = acc.pv := by
  intro fuel
  induction fuel with
  | zero => intro parts acc _ _ _; exact ⟨rfl, rfl, rfl, rfl⟩
  | succ n ih =>
      intro parts acc hd hs hp
      cases parts with
      | nil => simp [scanInfoGo]
      | cons tok rest =>
          simp only [List.mem_cons, not_or] at hd hs hp
          simp only [scanInfoGo, Bool.false_and, Bool.false_eq_true, if_false]
          split
          · exact absurd rfl (Ne.symm hd.1)
          · cases rest with
            | nil => exact ⟨rfl, rfl, rfl, rfl⟩
            | cons v rest2 =>
                exact ih rest2 _ (fun hm => hd.2 (List.mem_cons_of_mem _ hm))
                  (fun hm => hs.2 (List.mem_cons_of_mem _ hm))
                  (fun hm => hp.2 (List.mem_cons_of_mem _ hm))
          · exact absurd rfl (Ne.symm hs.1)
          · cases rest with
            | nil => exact ⟨rfl, rfl, rfl, rfl⟩
            | cons v rest2 =>
                exact ih rest2 _ (fun hm => hd.2 (List.mem_cons_of_mem _ hm))
                  (fun hm => hs.2 (List.mem_cons_of_mem _ hm))
                  (fun hm => hp.2 (List.mem_cons_of_mem _ hm))
          · cases rest with
            | nil => exact ⟨rfl, rfl, rfl, rfl⟩
            | cons v rest2 =>
                exact ih rest2 _ (fun hm => hd.2 (List.mem_cons_of_mem _ hm))
                  (fun hm => hs.2 (List.mem_cons_of_mem _ hm))
                  (fun hm => hp.2 (List.mem_cons_of_mem _ hm))
          · exact absurd rfl (Ne.symm hp.1)
          · exact ih rest acc hd.2 hs.2 hp.2

/-- C5: an `info` line produces an `Info` event exactly when the
keyword scan collected a depth, a score (centipawns or mate), or a
non-empty principal variation; a line whose tokens never mention the
`depth`, `score` or `pv` keywords produces no event; in particular
`info string NNUE evaluation` and an auxiliary-only line produce no
event. -/
theorem claim_C5 :
    (∀ line : String, (parse_info_line line).isSome = infoPayloadPresent line)
    ∧ (∀ line : String,
        "depth" ∉ (splitWhitespace line).tail →
        "score" ∉ (splitWhitespace line).tail →
        "pv" ∉ (splitWhitespace line).tail →
        parse_info_line line = none)
    ∧ parse_info_line "info string NNUE evaluation" = none
    ∧ parse_info_line "info nodes 1000 nps 500000 hashfull 12 time 50" = none := by
  refine ⟨?_, ?_, rfl, rfl⟩
  · intro line
    simp only [parse_info_line, infoPayloadPresent]
    split <;> simp_all
  · intro line h1 h2 h3
    simp only [parse_info_line, scanInfo]
    obtain ⟨e1, e2, e3, e4⟩ := scanInfoGo_no_keywords _ _ InfoFields.empty h1 h2 h3
    rw [e1, e2, e3, e4]
    simp [InfoFields.empty]

/-- C5 witness: a concrete line mentioning none of the three payload
keywords yields no event. -/
theorem claim_C5_witness :
    parse_info_line "info currmove e2e4 currmovenumber 1" = none :=
  claim_C5.2.1 "info currmove e2e4 currmovenumber 1" (by decide) (by decide) (by decide)

lemma scanInfoGo_pv_step (n : Nat) (rest : List String) (acc : InfoFields) :
    scanInfoGo (n + 1) ("pv" :: rest) false acc = scanInfoGo n rest true acc := by
  rfl

lemma scanInfoGo_stop_flag (fuel : Nat) (k : String) (tail : List String) (acc : InfoFields)
    (hk : stopKeywords.contains k = true) :
    scanInfoGo fuel (k :: tail) true acc = scanInfoGo fuel (k :: tail) false acc := by
  cases fuel with
  | zero => rfl
  | succ n =>
      simp only [scanInfoGo, hk, Bool.not_true, Bool.and_false, Bool.false_and,
        Bool.false_eq_true, if_false]

lemma scanInfoGo_pv_run : ∀ (moves : List String) (fuel : Nat) (rest : List String)
    (acc : InfoFields),
    (∀ m ∈ moves, stopKeywords.contains m = false) →
    scanInfoGo (moves.length + fuel) (moves ++ rest) true acc
      = scanInfoGo fuel rest true { acc with pv := acc.pv ++ moves } := by
  intro moves
  induction moves with
  | nil =>
      intro fuel rest acc _
      simp only [List.length_nil, Nat.zero_add, List.nil_append, List.append_nil]
  | cons m ms ihm =>
      intro fuel rest acc hm
      have hm1 : stopKeywords.contains m = false := hm m (by simp)
      have e : (m :: ms).length + fuel = (ms.length + fuel) + 1 := by
        simp only [List.length_cons]
        omega
      rw [e]
      simp only [List.cons_append, scanInfoGo, hm1, Bool.not_false, Bool.and_true,
        Bool.true_and, if_true]
      rw [ihm fuel rest _ (fun x hx => hm x (by simp [hx]))]
      simp [List.append_assoc]

/-- C6: in the info-line keyword scan, `pv` consumes every following
token as a principal-variation move up to the next keyword of the stop
list (or the end of the line), appending them to the collected `pv`;
and the spec's concrete example parses to exactly the claimed event. -/
theorem claim_C6 :
    (∀ (moves : List String) (k : String) (tail : List String) (acc : InfoFields),
      (∀ m ∈ moves, stopKeywords.contains m = false) →
      stopKeywords.contains k = true →
      scanInfo ("pv" :: (moves ++ k :: tail)) false acc
        = scanInfo (k :: tail) false { acc with pv := acc.pv ++ moves })
    ∧ (∀ (moves : List String) (acc : InfoFields),
      (∀ m ∈ moves, stopKeywords.contains m = false) →
      scanInfo ("pv" :: moves) false acc = { acc with pv := acc.pv ++ moves })
    ∧ parse_info_line "info depth 12 score cp 34 nodes 1000 pv e2e4 e7e5"
      = some (.Info (some 12) (some 34) none ["e2e4", "e7e5"] (some 1000) none none) := by
  refine ⟨?_, ?_, rfl⟩
  · intro moves k tail acc hm hk
    unfold scanInfo
    have len : ("pv" :: (moves ++ k :: tail)).length
        = (moves.length + (k :: tail).length) + 1 := by
      simp
    rw [len, scanInfoGo_pv_step, scanInfoGo_pv_run moves (k :: tail).length (k :: tail) acc hm,
      scanInfoGo_stop_flag _ k tail _ hk]
  · intro moves acc hm
    have h0 := scanInfoGo_pv_run moves 0 [] acc hm
    simp only [List.append_nil] at h0
    unfold scanInfo
    have len : ("pv" :: moves).length = moves.length + 1 := by simp
    rw [len, scanInfoGo_pv_step]
    rw [show moves.length = moves.length + 0 by omega] at h0 ⊢
    rw [h0]
    rfl

/-- C6 witness: the greedy pv rule at a concrete token list — the two
moves after `pv` are consumed and the scan resumes at `depth`. -/
theorem claim_C6_witness :
    scanInfo ["pv", "e2e4", "e7e5", "depth", "13"] false InfoFields.empty
      = scanInfo ["depth", "13"] false
          { InfoFields.empty with pv := ["e2e4", "e7e5"] } := by
  have h := claim_C6.1 ["e2e4", "e7e5"] "depth" ["13"] InfoFields.empty
    (by decide) (by decide)
  simpa using h

lemma waitLines_find (expected : String) :
    ∀ (pre : List String) (r : String) (post : List String),
      (∀ l ∈ pre, strStartsWith (strTrim l) expected = false) →
      strStartsWith (strTrim r) expected = true →
      waitLines expected (pre ++ r :: post) = some post := by
  intro pre
  induction pre with
  | nil => intro r post _ hr; simp [waitLines, hr]
  | cons l pre ih =>
      intro r post hpre hr
      have hl : strStartsWith (strTrim l) expected = false := hpre l (by simp)
      simp only [List.cons_append, waitLines, hl, Bool.false_eq_true, if_false]
      exact ih r post (fun x hx => hpre x (by simp [hx])) hr

/-- C8: with a live process, `SetMultiPV n` sends exactly the line
`setoption name MultiPV value m` with `m` the clamp of `n` into [1,5],
followed by `isready`; it consumes the engine's output up to and
including the first `readyok` line, emits no event, and leaves the
actor unchanged (hence in `Idle` when handled there). -/
theorem claim_C8 :
    ∀ (n : Nat) (a : Actor) (pre : List String) (r : String) (post : List String),
      a.stdin = true → a.stdout = true → a.state = .Idle →
      (∀ l ∈ pre, strStartsWith (strTrim l) "readyok" = false) →
      strStartsWith (strTrim r) "readyok" = true →
      handleCommand (.SetMultiPV n) a (pre ++ r :: post)
        = ⟨.ok (), a, post,
           ["setoption name MultiPV value " ++ toString (max 1 (min n 5)), "isready"], []⟩ := by
  intro n a pre r post h1 h2 h3 hpre hr
  obtain ⟨st, si, so, ch, df⟩ := a
  simp only at h1 h2 h3
  subst h1 h2 h3
  have hw := waitLines_find "readyok" pre r post hpre hr
  have hc : (if n < 1 then 1 else if n > 5 then 5 else n) = max 1 (min n 5) := by
    split_ifs <;> omega
  simp only [handleCommand, set_multipv, hc]
  simp [wrapErr, Eff.pure, Eff.bind, send_command, wait_for_response, hw]

/-- C8 witness: `SetMultiPV 7` against an idle actor clamps to 5 and
round-trips on a single `readyok` line. -/
theorem claim_C8_witness :
    handleCommand (.SetMultiPV 7) idleActor ["readyok"]
      = ⟨.ok (), idleActor, [], ["setoption name MultiPV value 5", "isready"], []⟩ := by
  have h := claim_C8 7 idleActor [] "readyok" [] rfl rfl rfl (by simp) (by decide)
  exact h

/-- Modelled from the spec: the option a `setoption name N value V`
line names (the tokens between `name` and `value`, rejoined on
spaces). -/
def setoptionName (cmd : String) : String :=
  " ".intercalate (((splitWhitespace cmd).drop 2).takeWhile (fun t => t ≠ "value"))

/-- Modelled from the spec: the value a `setoption name N value V`
line assigns. -/
def setoptionValue (cmd : String) : String :=
  " ".intercalate ((((splitWhitespace cmd).drop 2).dropWhile (fun t => t ≠ "value")).drop 1)

/-- Modelled from the spec: the engine's option table after applying a
list of `setoption` lines in order; each line assigns its value to its
named option.  (The UCI engine applying the options is the external
engine process, not code of this repository.) -/
def applyCmds : List String → (String → String) → String → String
  | [], s => s
  | c :: L, s =>
      applyCmds L (fun j => if j = setoptionName c then setoptionValue c else s j)

lemma applyCmds_dep : ∀ (L : List String) (s t : String → String) (k : String),
    s k = t k → applyCmds L s k = applyCmds L t k := by
  intro L
  induction L with
  | nil => intro s t k h; exact h
  | cons c L ih =>
      intro s t k h
      simp only [applyCmds]
      apply ih
      by_cases hk : k = setoptionName c <;> simp [hk, h]

lemma applyCmds_self_or : ∀ (L : List String) (s : String → String) (k : String),
    applyCmds L s k = s k ∨ ∀ t, applyCmds L t k = applyCmds L s k := by
  intro L
  induction L with
  | nil => intro s k; left; rfl
  | cons c L ih =>
      intro s k
      rcases ih (fun j => if j = setoptionName c then setoptionValue c else s j) k with h | h
      · by_cases hk : k = setoptionName c
        · right
          intro t
          simp only [applyCmds]
          exact applyCmds_dep L _ _ k (by simp [hk])
        · left
          simp only [applyCmds]
          rw [h]
          simp [hk]
      · right
        intro t
        simp only [applyCmds]
        exact h _

lemma applyCmds_idem (L : List String) (s : String → String) (k : String) :
    applyCmds L (fun j => applyCmds L s j) k = applyCmds L s k := by
  rcases applyCmds_self_or L s k with h | h
  · exact applyCmds_dep L (fun j => applyCmds L s j) s k (by simpa using h)
  · exact h _

lemma applyCmds_append (L1 L2 : List String) (s : String → String) (k : String) :
    applyCmds (L1 ++ L2) s k = applyCmds L2 (fun j => applyCmds L1 s j) k := by
  induction L1 generalizing s with
  | nil => rfl
  | cons c L ih =>
      simp only [List.cons_append, applyCmds]
      exact ih _

/-- C9: every difficulty level maps to a non-empty option-command
list; re-applying a level's commands is a no-op on the engine's option
table (idempotence under the assignment semantics of `setoption`); the
weakest level turns the rating limiter off while setting the separate
low skill parameter, and the strongest level only turns the limiter
off.  Determinism holds by construction: the mapping is a pure
function of the level. -/
theorem claim_C9 :
    (∀ l : DifficultyLevel, l.uci_commands ≠ [])
    ∧ (∀ (l : DifficultyLevel) (s : String → String) (k : String),
        applyCmds (l.uci_commands ++ l.uci_commands) s k = applyCmds l.uci_commands s k)
    ∧ DifficultyLevel.Novice.uci_commands
        = ["setoption name UCI_LimitStrength value false",
           "setoption name Skill Level value 0"]
    ∧ DifficultyLevel.Maximum.uci_commands
        = ["setoption name UCI_LimitStrength value false"] := by
  refine ⟨?_, ?_, rfl, rfl⟩
  · intro l
    cases l <;> simp [DifficultyLevel.uci_commands]
  · intro l s k
    rw [applyCmds_append]
    exact applyCmds_idem _ s k

/-- C9 witness: non-emptiness and idempotence instantiated at the
`Novice` level and a concrete option table. -/
theorem claim_C9_witness :
    DifficultyLevel.Novice.uci_commands ≠ []
    ∧ applyCmds
        (DifficultyLevel.Novice.uci_commands ++ DifficultyLevel.Novice.uci_commands)
        (fun _ => "") "Skill Level"
      = applyCmds DifficultyLevel.Novice.uci_commands (fun _ => "") "Skill Level" :=
  ⟨claim_C9.1 .Novice, claim_C9.2.1 .Novice (fun _ => "") "Skill Level"⟩

end StockfishChess
